import Mathlib

/-!
Verification of the polymarket-bot core against its specification.

The development shallowly embeds the relevant Python modules over ℚ
(the idealized real-number semantics of the float computations):

* `src/agents/risk.py`   — `RiskManager.calculate_kelly`, `RiskManager.assess_trade`
* `src/core/state.py`    — `StateManager.get_config`, `is_alive`,
                           `get_positions`, `reconcile_positions`
* `main.py`              — `_cancel_stale_orders`, the phased `main` cycle

Python's `round(x, n)` is modelled with `Int.round` (exact at every input
appearing in a theorem below; none sits on a half-way tie, where the two
rounding conventions could differ).  Reason strings produced by
`assess_trade` are modelled as a structured `Reason` tag carrying exactly
the quantities interpolated into the Python f-string.
-/

namespace PolyBot

/-! ## Embedding of `src/agents/risk.py` -/

/-- Parameters read in `RiskManager.__init__` (`risk.py` lines 44-53),
with the defaults of `StateManager.get_risk_params` (`state.py` 84-98). -/
structure RiskParams where
  kelly_fraction : ℚ
  max_position_pct : ℚ
  max_single_order : ℚ
  stop_out_pct : ℚ
  min_edge : ℚ
  emergency_threshold : ℚ
  emergency_min_confidence : ℚ
deriving DecidableEq

/-- The defaults from `StateManager.get_risk_params`. -/
def defaultRiskParams : RiskParams :=
  { kelly_fraction := 1/4
    max_position_pct := 1/5
    max_single_order := 50
    stop_out_pct := 1/5
    min_edge := 1/10
    emergency_threshold := 1/5
    emergency_min_confidence := 9/10 }

inductive Side where
  | BUY
  | SELL
deriving DecidableEq

/-- The content of the `reason` string of a `RiskAssessment`, as a
structured tag carrying the quantities the Python code interpolates. -/
inductive Reason where
  | zeroBalance
  | stopOut (drawdown : ℚ)
  | emergencyReject (balanceRatioPct conf : ℚ)
  | lowEdge (edge : ℚ)
  | negKelly
  | tooSmall (size : ℚ)
  | approved (edge kelly size : ℚ)
deriving DecidableEq

/-- `RiskAssessment` dataclass (`risk.py` lines 20-29). -/
structure RiskAssessment where
  should_trade : Bool
  order_size_usdc : ℚ
  kelly_fraction : ℚ
  kelly_raw : ℚ
  reason : Reason
  risk_level : String
deriving DecidableEq

/-- Python `round(x, 2)`. -/
def round2 (x : ℚ) : ℚ := (round (x * 100) : ℚ) / 100

/-- Python `round(x, 4)`. -/
def round4 (x : ℚ) : ℚ := (round (x * 10000) : ℚ) / 10000

/-- Net payout odds `b = (1 / price) - 1` (`risk.py` line 78). -/
def kelly_b (market_price : ℚ) : ℚ := 1 / market_price - 1

/-- Raw Kelly fraction `(b*p - q) / b` (`risk.py` line 85). -/
def kelly_raw_frac (ai_probability market_price : ℚ) : ℚ :=
  (kelly_b market_price * ai_probability - (1 - ai_probability)) / kelly_b market_price

/-- `RiskManager.calculate_kelly` (`risk.py` lines 61-97). -/
def calculate_kelly (P : RiskParams) (ai_probability market_price : ℚ) : ℚ :=
  if market_price ≤ 1/100 ∨ 99/100 ≤ market_price then 0
  else if kelly_b market_price ≤ 0 then 0
  else if kelly_raw_frac ai_probability market_price ≤ 0 then 0
  else min (kelly_raw_frac ai_probability market_price * P.kelly_fraction) (1/4)

/-- The directional edge computed in guard 4 of `assess_trade`
(`risk.py` lines 172-175). -/
def edge_for (side : Side) (ai_probability market_price : ℚ) : ℚ :=
  if side = Side.BUY then ai_probability - market_price
  else market_price - ai_probability

/-- The Kelly value computed in step 5 of `assess_trade`
(`risk.py` lines 191-196): the SELL side mirrors both arguments. -/
def kelly_for (P : RiskParams) (side : Side) (ai_probability market_price : ℚ) : ℚ :=
  if side = Side.BUY then calculate_kelly P ai_probability market_price
  else calculate_kelly P (1 - ai_probability) (1 - market_price)

/-- `kelly_raw_val / self.kelly_fraction if self.kelly_fraction > 0 else 0`
(`risk.py` lines 203-205, 232-234, 246-250). -/
def kelly_unscaled (P : RiskParams) (k : ℚ) : ℚ :=
  if 0 < P.kelly_fraction then k / P.kelly_fraction else 0

/-- The emergency flag set in guard 3 of `assess_trade`
(`risk.py` lines 152-156). -/
def emergency_flag (P : RiskParams) (current_balance initial_balance : ℚ) : Bool :=
  decide (0 < initial_balance ∧ current_balance / initial_balance < P.emergency_threshold)

/-- Step 6 of `assess_trade` (`risk.py` lines 210-224): position size with
the emergency cap, the max-position clamp and the hard cap, in source order. -/
def size_pipeline (P : RiskParams) (current_balance existing_position_size k : ℚ)
    (is_emergency : Bool) : ℚ :=
  let s0 := current_balance * k
  let s1 := if is_emergency then min s0 (current_balance * (5/100)) else s0
  let maxPosition := current_balance * P.max_position_pct
  let s2 := if maxPosition < existing_position_size + s1
            then max 0 (maxPosition - existing_position_size) else s1
  min s2 P.max_single_order

/-- `RiskManager.assess_trade` (`risk.py` lines 99-258): the ordered chain
of guards — balance, stop-out, emergency mode, edge, Kelly, sizing. -/
def assess_trade (P : RiskParams) (ai_probability market_price current_balance
    initial_balance existing_position_size : ℚ) (side : Side) : RiskAssessment :=
  if current_balance ≤ 0 then
    ⟨false, 0, 0, 0, Reason.zeroBalance, "blocked"⟩
  else if 0 < initial_balance ∧ current_balance / initial_balance < P.stop_out_pct then
    ⟨false, 0, 0, 0, Reason.stopOut (current_balance / initial_balance), "blocked"⟩
  else if (0 < initial_balance ∧ current_balance / initial_balance < P.emergency_threshold) ∧
          ai_probability < P.emergency_min_confidence then
    ⟨false, 0, 0, 0,
      Reason.emergencyReject (current_balance / initial_balance) ai_probability, "emergency"⟩
  else if edge_for side ai_probability market_price < P.min_edge then
    ⟨false, 0, 0, 0, Reason.lowEdge (edge_for side ai_probability market_price), "normal"⟩
  else if kelly_for P side ai_probability market_price ≤ 0 then
    ⟨false, 0, kelly_for P side ai_probability market_price,
      kelly_unscaled P (kelly_for P side ai_probability market_price),
      Reason.negKelly, "normal"⟩
  else
    let is_em := emergency_flag P current_balance initial_balance
    let osize := size_pipeline P current_balance existing_position_size
                   (kelly_for P side ai_probability market_price) is_em
    if osize < 1 then
      ⟨false, 0, kelly_for P side ai_probability market_price,
        kelly_unscaled P (kelly_for P side ai_probability market_price),
        Reason.tooSmall osize, if is_em then "cautious" else "normal"⟩
    else
      ⟨true, round2 osize,
        round4 (kelly_for P side ai_probability market_price),
        round4 (kelly_unscaled P (kelly_for P side ai_probability market_price)),
        Reason.approved (edge_for side ai_probability market_price)
          (kelly_for P side ai_probability market_price) osize,
        if is_em then "emergency" else "normal"⟩

/-! ## Arithmetic helper lemmas for rounding -/

theorem round2_le_add_half_cent (x : ℚ) : round2 x ≤ x + 1/200 := by
  unfold round2
  have h : (round (x * 100) : ℚ) ≤ x * 100 + 1/2 := round_le_add_half (x * 100)
  have h100 : (0:ℚ) < 100 := by norm_num
  rw [div_le_iff₀ h100]
  linarith

theorem one_le_round2 (x : ℚ) (hx : 1 ≤ x) : 1 ≤ round2 x := by
  unfold round2
  have hmono : (100 : ℤ) ≤ round (x * 100) := by
    rw [round_eq, show (100:ℤ) = ⌊(100:ℚ) + 1/2⌋ by norm_num]
    exact Int.floor_le_floor (by linarith)
  have h100 : (0:ℚ) < 100 := by norm_num
  rw [le_div_iff₀ h100]
  exact_mod_cast hmono

/-! ## Claims about the risk gate -/

/-- C1 counterexample: with a negative initial balance the mathematical ratio
`current_balance / initial_balance` is below the stop-out fraction, yet
`assess_trade` approves the trade — the guard only runs when
`initial_balance > 0` (`risk.py` line 135), so the claim as stated is false. -/
theorem c1_counterexample :
    (1000 : ℚ) / (-1000) < defaultRiskParams.stop_out_pct ∧
    (assess_trade defaultRiskParams (13/20) (2/5) 1000 (-1000) 0 Side.BUY).should_trade = true ∧
    (assess_trade defaultRiskParams (13/20) (2/5) 1000 (-1000) 0 Side.BUY).risk_level =
      "normal" := by
  refine ⟨by norm_num [defaultRiskParams], ?_, ?_⟩ <;>
    norm_num [assess_trade, size_pipeline, emergency_flag, kelly_for, edge_for,
      calculate_kelly, kelly_raw_frac, kelly_b, kelly_unscaled, defaultRiskParams,
      round2, round4, round_eq]

/-- C1 (amended): provided `initial_balance > 0`, every input with
`current_balance / initial_balance < stop_out_pct` (default 0.20) is rejected
with `should_trade = false` and risk level `"blocked"`, regardless of
probability, price, side or existing position. -/
theorem c1_stop_out_dominates (ai price cb ib ex : ℚ) (side : Side)
    (hib : 0 < ib) (hr : cb / ib < defaultRiskParams.stop_out_pct) :
    (assess_trade defaultRiskParams ai price cb ib ex side).should_trade = false ∧
    (assess_trade defaultRiskParams ai price cb ib ex side).risk_level = "blocked" := by
  unfold assess_trade
  by_cases h1 : cb ≤ 0
  · simp [h1]
  · simp [h1, hib, hr]

/-- C1 witness: scenario B of the spec — balance 150 against initial 1000. -/
theorem c1_witness :
    ((0:ℚ) < 1000 ∧ (150:ℚ)/1000 < defaultRiskParams.stop_out_pct) ∧
    (assess_trade defaultRiskParams (1/2) (1/2) 150 1000 0 Side.BUY).should_trade = false ∧
    (assess_trade defaultRiskParams (1/2) (1/2) 150 1000 0 Side.BUY).risk_level = "blocked" :=
  ⟨⟨by norm_num, by norm_num [defaultRiskParams]⟩,
    c1_stop_out_dominates (1/2) (1/2) 150 1000 0 Side.BUY (by norm_num)
      (by norm_num [defaultRiskParams])⟩

/-- C2 counterexample: with balance 50.03 the max-position clamp sets the size
to `0.2 * 50.03 = 10.006`, and `round(order_size, 2)` (`risk.py` line 244)
returns `10.01`, strictly above `min(max_single_order, 0.2*balance - existing)`
— the returned size can exceed the claimed upper bound by up to half a cent. -/
theorem c2_counterexample :
    (assess_trade defaultRiskParams (9/10) (1/20) (5003/100) (5003/100) 0
        Side.BUY).should_trade = true ∧
    (assess_trade defaultRiskParams (9/10) (1/20) (5003/100) (5003/100) 0
        Side.BUY).order_size_usdc = 1001/100 ∧
    min defaultRiskParams.max_single_order
        (defaultRiskParams.max_position_pct * (5003/100) - 0) < 1001/100 := by
  refine ⟨?_, ?_, by norm_num [defaultRiskParams]⟩ <;>
    norm_num [assess_trade, size_pipeline, emergency_flag, kelly_for, edge_for,
      calculate_kelly, kelly_raw_frac, kelly_b, kelly_unscaled, defaultRiskParams,
      round2, round4, round_eq]

/-- The computed (pre-rounding) order size respects the hard cap. -/
theorem size_pipeline_le_cap (P : RiskParams) (cb ex k : ℚ) (em : Bool) :
    size_pipeline P cb ex k em ≤ P.max_single_order := by
  unfold size_pipeline
  exact min_le_right _ _

/-- If the computed order size is viable (≥ 1), it also respects the
max-position exposure bound. -/
theorem size_pipeline_le_exposure (P : RiskParams) (cb ex k : ℚ) (em : Bool)
    (h : 1 ≤ size_pipeline P cb ex k em) :
    size_pipeline P cb ex k em ≤ cb * P.max_position_pct - ex := by
  unfold size_pipeline at h ⊢
  set s1 := if em then min (cb * k) (cb * (5/100)) else cb * k with hs1
  by_cases hclamp : cb * P.max_position_pct < ex + s1
  · simp only [if_pos hclamp] at h ⊢
    rcases le_or_lt (cb * P.max_position_pct - ex) 0 with hneg | hpos
    · exfalso
      have : max 0 (cb * P.max_position_pct - ex) = 0 := max_eq_left hneg
      rw [this] at h
      have := min_le_left (0:ℚ) P.max_single_order
      linarith [le_trans h (min_le_left (0:ℚ) P.max_single_order)]
    · have : max 0 (cb * P.max_position_pct - ex) = cb * P.max_position_pct - ex :=
        max_eq_right hpos.le
      rw [this]
      exact min_le_left _ _
  · simp only [if_neg hclamp] at h ⊢
    push_neg at hclamp
    calc min s1 P.max_single_order ≤ s1 := min_le_left _ _
      _ ≤ cb * P.max_position_pct - ex := by linarith

/-- C2 (amended): whenever `should_trade = true`, the returned
`order_size_usdc` is the 2-decimal rounding of a computed size that satisfies
`1 ≤ size ≤ min(max_single_order, max_position_pct*balance - existing)`
exactly; hence the returned value satisfies the lower bound exactly and the
upper bound up to the half-cent rounding slack `1/200`.  An order whose
computed size falls below 1 is returned as a rejection. -/
theorem c2_size_bounds (ai price cb ib ex : ℚ) (side : Side)
    (h : (assess_trade defaultRiskParams ai price cb ib ex side).should_trade = true) :
    1 ≤ (assess_trade defaultRiskParams ai price cb ib ex side).order_size_usdc ∧
    (assess_trade defaultRiskParams ai price cb ib ex side).order_size_usdc ≤
      min defaultRiskParams.max_single_order
        (defaultRiskParams.max_position_pct * cb - ex) + 1/200 := by
  unfold assess_trade at h ⊢
  dsimp only at h ⊢
  split_ifs at h ⊢ with h1 h2 h3 h4 h5 h6
  all_goals try simp at h
  all_goals (
    push_neg at h6
    have hcap := size_pipeline_le_cap defaultRiskParams cb ex
      (kelly_for defaultRiskParams side ai price)
      (emergency_flag defaultRiskParams cb ib)
    have hexp := size_pipeline_le_exposure defaultRiskParams cb ex
      (kelly_for defaultRiskParams side ai price)
      (emergency_flag defaultRiskParams cb ib) h6
    have hr := round2_le_add_half_cent (size_pipeline defaultRiskParams cb ex
      (kelly_for defaultRiskParams side ai price)
      (emergency_flag defaultRiskParams cb ib))
    have hmin : size_pipeline defaultRiskParams cb ex
        (kelly_for defaultRiskParams side ai price)
        (emergency_flag defaultRiskParams cb ib) ≤
        min defaultRiskParams.max_single_order
          (defaultRiskParams.max_position_pct * cb - ex) := by
      refine le_min hcap ?_
      calc size_pipeline defaultRiskParams cb ex
            (kelly_for defaultRiskParams side ai price)
            (emergency_flag defaultRiskParams cb ib) ≤
          cb * defaultRiskParams.max_position_pct - ex := hexp
        _ = defaultRiskParams.max_position_pct * cb - ex := by ring
    exact ⟨one_le_round2 _ h6, by linarith⟩)

/-- C2 witness: the default scenario-A input is approved, and its returned
size 50 satisfies both bounds. -/
theorem c2_witness :
    1 ≤ (assess_trade defaultRiskParams (13/20) (2/5) 1000 1000 0
          Side.BUY).order_size_usdc ∧
    (assess_trade defaultRiskParams (13/20) (2/5) 1000 1000 0
          Side.BUY).order_size_usdc ≤
      min defaultRiskParams.max_single_order
        (defaultRiskParams.max_position_pct * 1000 - 0) + 1/200 :=
  c2_size_bounds (13/20) (2/5) 1000 1000 0 Side.BUY
    (by norm_num [assess_trade, size_pipeline, emergency_flag, kelly_for, edge_for,
      calculate_kelly, kelly_raw_frac, kelly_b, kelly_unscaled, defaultRiskParams,
      round2, round4, round_eq])

/-- C5: under the default parameters `assess_trade` is side-agnostic via
mirroring — a SELL assessment of `(p, price)` equals a BUY assessment of the
mirrored inputs `(1-p, 1-price)` for every balance and existing position
(`risk.py` lines 172-175 mirror the edge, lines 191-196 mirror the Kelly
arguments; the emergency guard, the only side-asymmetric step, is
unreachable under the default thresholds). -/
theorem c5_side_mirror (ai price cb ib ex : ℚ) :
    assess_trade defaultRiskParams ai price cb ib ex Side.SELL =
    assess_trade defaultRiskParams (1 - ai) (1 - price) cb ib ex Side.BUY := by
  have hSB : Side.SELL ≠ Side.BUY := fun h => Side.noConfusion h
  have hedge : edge_for Side.BUY (1 - ai) (1 - price) = edge_for Side.SELL ai price := by
    simp only [edge_for, if_neg hSB, eq_self_iff_true, if_true]
    ring
  have hkelly : kelly_for defaultRiskParams Side.BUY (1 - ai) (1 - price) =
      kelly_for defaultRiskParams Side.SELL ai price := by
    simp only [kelly_for, if_neg hSB, eq_self_iff_true, if_true]
  unfold assess_trade
  rw [hedge, hkelly]
  by_cases h1 : cb ≤ 0
  · simp only [if_pos h1]
  · simp only [if_neg h1]
    by_cases h2 : 0 < ib ∧ cb / ib < defaultRiskParams.stop_out_pct
    · simp only [if_pos h2]
    · simp only [if_neg h2]
      have h3a : ¬((0 < ib ∧ cb / ib < defaultRiskParams.emergency_threshold) ∧
          ai < defaultRiskParams.emergency_min_confidence) := fun hc => h2 hc.1
      have h3b : ¬((0 < ib ∧ cb / ib < defaultRiskParams.emergency_threshold) ∧
          1 - ai < defaultRiskParams.emergency_min_confidence) := fun hc => h2 hc.1
      simp only [if_neg h3a, if_neg h3b]

/-- C6 counterexample: at the scenario-A inputs the raw Kelly fraction the
code computes (and reports, rounded, in the `kelly_raw` field) is
`5/12 ≈ 0.4167`, not `≈ 0.4583` as the claim states — the claim misevaluates
its own formula `((1/0.4-1)*0.65-0.35)/(1/0.4-1)`. -/
theorem c6_counterexample :
    (assess_trade defaultRiskParams (13/20) (2/5) 1000 1000 0 Side.BUY).kelly_raw =
      4167/10000 ∧
    kelly_raw_frac (13/20) (2/5) = 5/12 ∧
    ¬ (|(4167:ℚ)/10000 - 4583/10000| ≤ 1/50) := by
  refine ⟨?_, ?_, ?_⟩ <;>
    norm_num [assess_trade, size_pipeline, emergency_flag, kelly_for, edge_for,
      calculate_kelly, kelly_raw_frac, kelly_b, kelly_unscaled, defaultRiskParams,
      round2, round4, round_eq, abs_le]

/-- C6 (amended): the scenario-A run — balance 1000, initial 1000, price 0.40,
probability 0.65, BUY, no existing position — yields edge 0.25, raw Kelly
`5/12 ≈ 0.4167`, scaled Kelly `5/48 ≈ 0.1042`, unclamped size
`1000 * 5/48 ≈ 104.17`, capped at the $50 hard cap: the result is approved
with `order_size_usdc = 50`, `kelly_fraction = 0.1042`, `kelly_raw = 0.4167`,
risk level `"normal"`. -/
theorem c6_scenario_a :
    assess_trade defaultRiskParams (13/20) (2/5) 1000 1000 0 Side.BUY =
      ⟨true, 50, 521/5000, 4167/10000, Reason.approved (1/4) (5/48) 50, "normal"⟩ := by
  norm_num [assess_trade, size_pipeline, emergency_flag, kelly_for, edge_for,
    calculate_kelly, kelly_raw_frac, kelly_b, kelly_unscaled, defaultRiskParams,
    round2, round4, round_eq]

/-- C8: for any price in (0.01, 0.99) and probability in [0,1] with
`p ≤ price`, the raw Kelly fraction `(b*p - q)/b` is nonpositive and
`calculate_kelly` returns 0 (`risk.py` lines 85-89). -/
theorem c8_kelly_nonpositive (ai price : ℚ) (h1 : 1/100 < price)
    (h2 : price < 99/100) (_h3 : 0 ≤ ai) (_h4 : ai ≤ 1) (h5 : ai ≤ price) :
    kelly_raw_frac ai price ≤ 0 ∧ calculate_kelly defaultRiskParams ai price = 0 := by
  have hp : (0:ℚ) < price := lt_trans (by norm_num) h1
  have hb : 0 < kelly_b price := by
    unfold kelly_b
    have hgt : 1 < 1 / price := by
      rw [lt_div_iff₀ hp]
      linarith
    linarith
  have hnum : kelly_b price * ai - (1 - ai) = (ai - price) / price := by
    unfold kelly_b
    field_simp
    ring
  have hraw : kelly_raw_frac ai price ≤ 0 := by
    unfold kelly_raw_frac
    rw [hnum]
    have hfrac : (ai - price) / price ≤ 0 :=
      div_nonpos_of_nonpos_of_nonneg (by linarith) hp.le
    exact div_nonpos_of_nonpos_of_nonneg hfrac hb.le
  refine ⟨hraw, ?_⟩
  unfold calculate_kelly
  rw [if_neg (by push_neg; exact ⟨by linarith, by linarith⟩),
    if_neg (not_le.2 hb), if_pos hraw]

/-- C8 witness: probability 1/3 at price 1/2. -/
theorem c8_witness :
    ((1:ℚ)/100 < 1/2 ∧ (1:ℚ)/2 < 99/100 ∧ (0:ℚ) ≤ 1/3 ∧ (1:ℚ)/3 ≤ 1 ∧
      (1:ℚ)/3 ≤ 1/2) ∧
    kelly_raw_frac (1/3) (1/2) ≤ 0 ∧ calculate_kelly defaultRiskParams (1/3) (1/2) = 0 :=
  ⟨⟨by norm_num, by norm_num, by norm_num, by norm_num, by norm_num⟩,
    c8_kelly_nonpositive (1/3) (1/2) (by norm_num) (by norm_num) (by norm_num)
      (by norm_num) (by norm_num)⟩

/-- C10: under the default parameters (emergency threshold = stop-out = 0.20)
and a positive initial balance, `assess_trade` never returns risk level
`"emergency"`; any balance ratio strictly below the emergency threshold is
already rejected as `"blocked"` by the stop-out guard, and at or above the
threshold the emergency flag gating the 5%-of-balance cap is false — the
emergency band is empty. -/
theorem c10_emergency_band_empty (ai price cb ib ex : ℚ) (side : Side)
    (hib : 0 < ib) :
    (assess_trade defaultRiskParams ai price cb ib ex side).risk_level ≠ "emergency" ∧
    (cb / ib < defaultRiskParams.emergency_threshold →
      (assess_trade defaultRiskParams ai price cb ib ex side).should_trade = false ∧
      (assess_trade defaultRiskParams ai price cb ib ex side).risk_level = "blocked") ∧
    (¬ cb / ib < defaultRiskParams.emergency_threshold →
      emergency_flag defaultRiskParams cb ib = false) := by
  refine ⟨?_, ?_, ?_⟩
  · unfold assess_trade
    by_cases h1 : cb ≤ 0
    · simp only [if_pos h1]
      exact (by decide : ("blocked" : String) ≠ "emergency")
    · simp only [if_neg h1]
      by_cases h2 : 0 < ib ∧ cb / ib < defaultRiskParams.stop_out_pct
      · simp only [if_pos h2]
        exact (by decide : ("blocked" : String) ≠ "emergency")
      · simp only [if_neg h2]
        have h3 : ¬((0 < ib ∧ cb / ib < defaultRiskParams.emergency_threshold) ∧
            ai < defaultRiskParams.emergency_min_confidence) := fun hc => h2 hc.1
        have hflag : emergency_flag defaultRiskParams cb ib = false := by
          simp only [emergency_flag, decide_eq_false_iff_not]
          exact fun hc => h2 hc
        simp only [if_neg h3, hflag]
        split_ifs <;>
          first
            | exact (by decide : ("normal" : String) ≠ "emergency")
            | exact (by decide : ("cautious" : String) ≠ "emergency")
            | simp_all
  · intro hr
    unfold assess_trade
    by_cases h1 : cb ≤ 0
    · simp [h1]
    · have h2 : 0 < ib ∧ cb / ib < defaultRiskParams.stop_out_pct := ⟨hib, hr⟩
      simp [h1, h2]
  · intro hr
    simp only [emergency_flag, decide_eq_false_iff_not]
    exact fun hc => hr hc.2

/-- C10 witness: a healthy default account (balance = initial = 1000). -/
theorem c10_witness :
    (0:ℚ) < 1000 ∧
    ((assess_trade defaultRiskParams (1/2) (1/2) 1000 1000 0 Side.BUY).risk_level ≠
        "emergency" ∧
      ((1000:ℚ) / 1000 < defaultRiskParams.emergency_threshold →
        (assess_trade defaultRiskParams (1/2) (1/2) 1000 1000 0 Side.BUY).should_trade =
          false ∧
        (assess_trade defaultRiskParams (1/2) (1/2) 1000 1000 0 Side.BUY).risk_level =
          "blocked") ∧
      (¬ (1000:ℚ) / 1000 < defaultRiskParams.emergency_threshold →
        emergency_flag defaultRiskParams 1000 1000 = false)) :=
  ⟨by norm_num, c10_emergency_band_empty (1/2) (1/2) 1000 1000 0 Side.BUY (by norm_num)⟩

/-! ## Embedding of `src/core/state.py` — positions and reconciliation

The `positions` table has a uniqueness constraint on
`(condition_id, token_id)` (`upsert ... on_conflict="condition_id,token_id"`),
so the store is an association list keyed by that pair.  `upsert` updates the
provided columns of an existing row or inserts a new one; `close_position`
is an `UPDATE ... WHERE` that sets `is_open = false`. -/

/-- A `(condition_id, token_id)` key. -/
abbrev PosKey := String × String

/-- A row of the `positions` table (the columns reconciliation touches). -/
structure DbPos where
  size : ℚ
  entry_price : ℚ
  is_open : Bool
  source : String
deriving DecidableEq

/-- A position reported by the ledger (`engine.get_positions()` entry). -/
structure ChainPos where
  condition_id : String
  token_id : String
  size : ℚ
  avg_price : ℚ
deriving DecidableEq

def ChainPos.key (c : ChainPos) : PosKey := (c.condition_id, c.token_id)

abbrev PosStore := List (PosKey × DbPos)

def storeLookup (s : PosStore) (k : PosKey) : Option DbPos :=
  (s.find? (fun kv => decide (kv.1 = k))).map Prod.snd

/-- SQL `UPDATE positions SET ... WHERE condition_id = _ AND token_id = _`. -/
def updateRows (s : PosStore) (k : PosKey) (f : DbPos → DbPos) : PosStore :=
  s.map (fun kv => if kv.1 = k then (kv.1, f kv.2) else kv)

/-- `StateManager.upsert_position` with a full row (`state.py` 139-148):
replaces the row on key conflict, inserts otherwise. -/
def upsertFull (s : PosStore) (k : PosKey) (v : DbPos) : PosStore :=
  if (storeLookup s k).isSome then updateRows s k (fun _ => v) else s ++ [(k, v)]

/-- `StateManager.upsert_position` with only `size`/`is_open` columns
(the update branch of reconciliation): existing columns are kept. -/
def upsertSizeOpen (s : PosStore) (k : PosKey) (sz : ℚ) (op : Bool) : PosStore :=
  if (storeLookup s k).isSome then
    updateRows s k (fun r => { r with size := sz, is_open := op })
  else s ++ [(k, ⟨sz, 0, op, ""⟩)]

/-- `StateManager.close_position` (`state.py` 150-162). -/
def closePos (s : PosStore) (k : PosKey) : PosStore :=
  updateRows s k (fun r => { r with is_open := false })

/-- `StateManager.get_positions` (`state.py` 125-137): the open rows. -/
def get_positions (s : PosStore) : PosStore :=
  s.filter (fun kv => kv.2.is_open)

/-- `onchain_map` lookup (the Python dict keyed by `(condition_id, token_id)`). -/
def chainLookup (ocm : List ChainPos) (k : PosKey) : Option ChainPos :=
  ocm.find? (fun c => decide (c.key = k))

/-- First loop of `reconcile_positions` (`state.py` 292-305): every ledger key
absent from the open-position snapshot is inserted as a newly discovered open
position. -/
def addLoop (dbk : List PosKey) (ocm : List ChainPos) (s : PosStore) :
    PosStore × List PosKey :=
  match ocm with
  | [] => (s, [])
  | c :: rest =>
    if c.key ∈ dbk then addLoop dbk rest s
    else
      let r := addLoop dbk rest
        (upsertFull s c.key ⟨c.size, c.avg_price, true, "onchain_discovery"⟩)
      (r.1, c.key :: r.2)

/-- Second loop of `reconcile_positions` (`state.py` 307-312): every snapshot
key absent from the ledger is closed. -/
def removeLoop (ock : List PosKey) (dbm : PosStore) (s : PosStore) :
    PosStore × List PosKey :=
  match dbm with
  | [] => (s, [])
  | (k, _) :: rest =>
    if k ∈ ock then removeLoop ock rest s
    else
      let r := removeLoop ock rest (closePos s k)
      (r.1, k :: r.2)

/-- Third loop of `reconcile_positions` (`state.py` 314-331): keys present on
both sides whose sizes differ by more than the 0.001 tolerance are overwritten
with the ledger size, open iff that size is positive. -/
def updateLoop (ocm : List ChainPos) (dbm : PosStore) (s : PosStore) :
    PosStore × List PosKey :=
  match dbm with
  | [] => (s, [])
  | (k, dp) :: rest =>
    match chainLookup ocm k with
    | none => updateLoop ocm rest s
    | some c =>
      if 1/1000 < |dp.size - c.size| then
        let r := updateLoop ocm rest (upsertSizeOpen s k c.size (decide (0 < c.size)))
        (r.1, k :: r.2)
      else updateLoop ocm rest s

/-- `StateManager.reconcile_positions` (`state.py` 270-333): returns the
updated store together with the `added`, `removed`, `updated` key lists. -/
def reconcile_positions (s : PosStore) (onchain : List ChainPos) :
    PosStore × List PosKey × List PosKey × List PosKey :=
  let dbm := get_positions s
  let a := addLoop (dbm.map Prod.fst) onchain s
  let r := removeLoop (onchain.map ChainPos.key) dbm a.1
  let u := updateLoop onchain dbm r.1
  (u.1, a.2, r.2, u.2)

/-! ### Lookup lemmas for the store operations -/

theorem storeLookup_cons (k0 : PosKey) (v0 : DbPos) (t : PosStore) (k : PosKey) :
    storeLookup ((k0, v0) :: t) k = if k0 = k then some v0 else storeLookup t k := by
  by_cases h : k0 = k
  · rw [if_pos h]
    unfold storeLookup
    rw [List.find?_cons_of_pos _ (by simpa using h)]
    rfl
  · rw [if_neg h]
    unfold storeLookup
    rw [List.find?_cons_of_neg _ (by simpa using h)]

theorem storeLookup_append (s t : PosStore) (k : PosKey) :
    storeLookup (s ++ t) k =
      match storeLookup s k with
      | some v => some v
      | none => storeLookup t k := by
  induction s with
  | nil => rfl
  | cons kv r ih =>
    obtain ⟨k0, v0⟩ := kv
    by_cases h : k0 = k <;> simp [storeLookup_cons, h, ih]

theorem updateRows_cons (k0 : PosKey) (v0 : DbPos) (t : PosStore) (k : PosKey)
    (f : DbPos → DbPos) :
    updateRows ((k0, v0) :: t) k f =
      (if k0 = k then (k0, f v0) else (k0, v0)) :: updateRows t k f := by
  by_cases h : k0 = k <;> simp [updateRows, h]

theorem lookup_updateRows_self (s : PosStore) (k : PosKey) (f : DbPos → DbPos) :
    storeLookup (updateRows s k f) k = (storeLookup s k).map f := by
  induction s with
  | nil => rfl
  | cons kv t ih =>
    obtain ⟨k0, v0⟩ := kv
    by_cases h : k0 = k <;>
      simp [updateRows_cons, storeLookup_cons, h, ih]

theorem lookup_updateRows_ne (s : PosStore) (k : PosKey) (f : DbPos → DbPos)
    (k' : PosKey) (h : k' ≠ k) :
    storeLookup (updateRows s k f) k' = storeLookup s k' := by
  induction s with
  | nil => rfl
  | cons kv t ih =>
    obtain ⟨k0, v0⟩ := kv
    by_cases h0 : k0 = k
    · subst h0
      rw [updateRows_cons, if_pos rfl, storeLookup_cons, storeLookup_cons,
        if_neg (fun hc => h hc.symm), if_neg (fun hc => h hc.symm)]
      exact ih
    · rw [updateRows_cons, if_neg h0, storeLookup_cons, storeLookup_cons]
      by_cases h1 : k0 = k'
      · rw [if_pos h1, if_pos h1]
      · rw [if_neg h1, if_neg h1]
        exact ih

theorem lookup_none_iff (s : PosStore) (k : PosKey) :
    storeLookup s k = none ↔ k ∉ s.map Prod.fst := by
  induction s with
  | nil => simp [storeLookup]
  | cons kv t ih =>
    obtain ⟨k0, v0⟩ := kv
    rw [storeLookup_cons]
    by_cases h : k0 = k
    · subst h
      simp
    · rw [if_neg h, ih]
      simp only [List.map_cons, List.mem_cons, not_or]
      exact ⟨fun hnk => ⟨fun hc => h hc.symm, hnk⟩, fun hp => hp.2⟩

theorem lookup_mem (s : PosStore) (k : PosKey) (v : DbPos)
    (h : storeLookup s k = some v) : (k, v) ∈ s := by
  unfold storeLookup at h
  obtain ⟨kv, hfind⟩ : ∃ kv, s.find? (fun kv => decide (kv.1 = k)) = some kv := by
    cases hf : s.find? (fun kv => decide (kv.1 = k)) with
    | none => rw [hf] at h; exact absurd h (by simp)
    | some kv => exact ⟨kv, rfl⟩
  have hmem := List.mem_of_find?_eq_some hfind
  have hkey : kv.1 = k := by simpa using List.find?_some hfind
  rw [hfind] at h
  have hval : kv.2 = v := by simpa using h
  obtain ⟨k1, v1⟩ := kv
  cases hkey
  cases hval
  exact hmem

theorem mem_lookup (s : PosStore) (k : PosKey) (v : DbPos)
    (hs : (s.map Prod.fst).Nodup) (h : (k, v) ∈ s) :
    storeLookup s k = some v := by
  induction s with
  | nil => cases h
  | cons kv t ih =>
    obtain ⟨k0, v0⟩ := kv
    simp only [List.map_cons, List.nodup_cons] at hs
    rcases List.mem_cons.mp h with heq | hmem
    · injection heq with hk hv
      subst hk
      subst hv
      rw [storeLookup_cons, if_pos rfl]
    · have hk0 : k0 ≠ k := by
        intro hc
        subst hc
        exact hs.1 (List.mem_map.mpr ⟨(k0, v), hmem, rfl⟩)
      rw [storeLookup_cons, if_neg hk0]
      exact ih hs.2 hmem

theorem lookup_upsertFull_self (s : PosStore) (k : PosKey) (v : DbPos) :
    storeLookup (upsertFull s k v) k = some v := by
  unfold upsertFull
  by_cases h : (storeLookup s k).isSome
  · rw [if_pos h, lookup_updateRows_self]
    obtain ⟨r, hr⟩ := Option.isSome_iff_exists.mp h
    rw [hr]
    rfl
  · rw [if_neg h, storeLookup_append,
      Option.not_isSome_iff_eq_none.mp h]
    simp [storeLookup_cons]

theorem lookup_upsertFull_ne (s : PosStore) (k : PosKey) (v : DbPos)
    (k' : PosKey) (h : k' ≠ k) :
    storeLookup (upsertFull s k v) k' = storeLookup s k' := by
  unfold upsertFull
  split_ifs with hs
  · exact lookup_updateRows_ne s k _ k' h
  · rw [storeLookup_append]
    have : storeLookup [(k, v)] k' = none := by
      rw [show ([(k, v)] : PosStore) = (k, v) :: [] from rfl, storeLookup_cons,
        if_neg (fun hc => h hc.symm)]
      rfl
    cases hcase : storeLookup s k' <;> simp [this]

theorem lookup_upsertSizeOpen_self (s : PosStore) (k : PosKey) (sz : ℚ) (op : Bool)
    (r : DbPos) (h : storeLookup s k = some r) :
    storeLookup (upsertSizeOpen s k sz op) k =
      some { r with size := sz, is_open := op } := by
  unfold upsertSizeOpen
  rw [if_pos (by rw [h]; rfl), lookup_updateRows_self, h]
  rfl

theorem lookup_upsertSizeOpen_ne (s : PosStore) (k : PosKey) (sz : ℚ) (op : Bool)
    (k' : PosKey) (h : k' ≠ k) :
    storeLookup (upsertSizeOpen s k sz op) k' = storeLookup s k' := by
  unfold upsertSizeOpen
  split_ifs with hs
  · exact lookup_updateRows_ne s k _ k' h
  · rw [storeLookup_append]
    have : storeLookup [(k, ⟨sz, 0, op, ""⟩)] k' = none := by
      rw [show ([(k, (⟨sz, 0, op, ""⟩ : DbPos))] : PosStore) =
        (k, (⟨sz, 0, op, ""⟩ : DbPos)) :: [] from rfl, storeLookup_cons,
        if_neg (fun hc => h hc.symm)]
      rfl
    cases hcase : storeLookup s k' <;> simp [this]

theorem lookup_closePos_self (s : PosStore) (k : PosKey) :
    storeLookup (closePos s k) k =
      (storeLookup s k).map (fun r => { r with is_open := false }) :=
  lookup_updateRows_self s k _

theorem lookup_closePos_ne (s : PosStore) (k k' : PosKey) (h : k' ≠ k) :
    storeLookup (closePos s k) k' = storeLookup s k' :=
  lookup_updateRows_ne s k _ k' h

/-! ### Key-set and nodup preservation -/

theorem keys_updateRows (s : PosStore) (k : PosKey) (f : DbPos → DbPos) :
    (updateRows s k f).map Prod.fst = s.map Prod.fst := by
  induction s with
  | nil => rfl
  | cons kv t ih =>
    obtain ⟨k0, v0⟩ := kv
    by_cases h : k0 = k <;> simp [updateRows_cons, h, ih]

theorem nodup_upsertFull (s : PosStore) (k : PosKey) (v : DbPos)
    (hs : (s.map Prod.fst).Nodup) : ((upsertFull s k v).map Prod.fst).Nodup := by
  unfold upsertFull
  split_ifs with h
  · rw [keys_updateRows]
    exact hs
  · have hk : k ∉ s.map Prod.fst :=
      (lookup_none_iff s k).mp (Option.not_isSome_iff_eq_none.mp h)
    rw [List.map_append]
    rw [List.nodup_append]
    refine ⟨hs, List.nodup_singleton k, ?_⟩
    intro a ha hb
    simp only [List.map_cons, List.map_nil, List.mem_singleton] at hb
    subst hb
    exact hk ha

theorem nodup_upsertSizeOpen (s : PosStore) (k : PosKey) (sz : ℚ) (op : Bool)
    (hs : (s.map Prod.fst).Nodup) :
    ((upsertSizeOpen s k sz op).map Prod.fst).Nodup := by
  unfold upsertSizeOpen
  split_ifs with h
  · rw [keys_updateRows]
    exact hs
  · have hk : k ∉ s.map Prod.fst :=
      (lookup_none_iff s k).mp (Option.not_isSome_iff_eq_none.mp h)
    rw [List.map_append]
    rw [List.nodup_append]
    refine ⟨hs, List.nodup_singleton k, ?_⟩
    intro a ha hb
    simp only [List.map_cons, List.map_nil, List.mem_singleton] at hb
    subst hb
    exact hk ha

theorem nodup_closePos (s : PosStore) (k : PosKey)
    (hs : (s.map Prod.fst).Nodup) : ((closePos s k).map Prod.fst).Nodup := by
  unfold closePos
  rw [keys_updateRows]
  exact hs

theorem nodup_addLoop (dbk : List PosKey) (ocm : List ChainPos) (s : PosStore)
    (hs : (s.map Prod.fst).Nodup) :
    (((addLoop dbk ocm s).1).map Prod.fst).Nodup := by
  induction ocm generalizing s with
  | nil => exact hs
  | cons c rest ih =>
    unfold addLoop
    split_ifs with h
    · exact ih s hs
    · exact ih _ (nodup_upsertFull _ _ _ hs)

theorem nodup_removeLoop (ock : List PosKey) (dbm : PosStore) (s : PosStore)
    (hs : (s.map Prod.fst).Nodup) :
    (((removeLoop ock dbm s).1).map Prod.fst).Nodup := by
  induction dbm generalizing s with
  | nil => exact hs
  | cons kv rest ih =>
    obtain ⟨k0, v0⟩ := kv
    unfold removeLoop
    split_ifs with h
    · exact ih s hs
    · exact ih _ (nodup_closePos _ _ hs)

theorem nodup_updateLoop (ocm : List ChainPos) (dbm : PosStore) (s : PosStore)
    (hs : (s.map Prod.fst).Nodup) :
    (((updateLoop ocm dbm s).1).map Prod.fst).Nodup := by
  induction dbm generalizing s with
  | nil => exact hs
  | cons kv rest ih =>
    obtain ⟨k0, v0⟩ := kv
    unfold updateLoop
    cases chainLookup ocm k0 with
    | none => exact ih s hs
    | some c =>
      dsimp only
      split_ifs with h
      · exact ih _ (nodup_upsertSizeOpen _ _ _ _ hs)
      · exact ih s hs

/-! ### `chainLookup` helpers -/

theorem chainLookup_some (ocm : List ChainPos) (k : PosKey) (c : ChainPos)
    (h : chainLookup ocm k = some c) : c ∈ ocm ∧ c.key = k :=
  ⟨List.mem_of_find?_eq_some h, by simpa using List.find?_some h⟩

theorem chainLookup_none_iff (ocm : List ChainPos) (k : PosKey) :
    chainLookup ocm k = none ↔ k ∉ ocm.map ChainPos.key := by
  induction ocm with
  | nil => simp [chainLookup]
  | cons c rest ih =>
    unfold chainLookup at ih ⊢
    by_cases h : c.key = k
    · rw [List.find?_cons_of_pos _ (by simpa using h)]
      simp [h]
    · rw [List.find?_cons_of_neg _ (by simpa using h)]
      rw [ih]
      simp only [List.map_cons, List.mem_cons, not_or]
      exact ⟨fun hnk => ⟨fun hc => h hc.symm, hnk⟩, fun hp => hp.2⟩

theorem chainLookup_of_mem (ocm : List ChainPos) (c : ChainPos)
    (hnd : (ocm.map ChainPos.key).Nodup) (hc : c ∈ ocm) :
    chainLookup ocm c.key = some c := by
  induction ocm with
  | nil => cases hc
  | cons c0 rest ih =>
    simp only [List.map_cons, List.nodup_cons] at hnd
    rcases List.mem_cons.mp hc with heq | hmem
    · subst heq
      unfold chainLookup
      rw [List.find?_cons_of_pos _ (by simp)]
    · have hk0 : c0.key ≠ c.key := by
        intro hkeq
        exact hnd.1 (hkeq ▸ List.mem_map.mpr ⟨c, hmem, rfl⟩)
      unfold chainLookup
      rw [List.find?_cons_of_neg _ (by simpa using hk0)]
      exact ih hnd.2 hmem

theorem mem_get_positions (s : PosStore) (k : PosKey) (v : DbPos) :
    (k, v) ∈ get_positions s ↔ (k, v) ∈ s ∧ v.is_open = true := by
  simp [get_positions, List.mem_filter]

/-! ### Behaviour of the three reconciliation loops -/

theorem addLoop_lookup_unchanged (dbk : List PosKey) (ocm : List ChainPos)
    (s : PosStore) (k : PosKey)
    (h : ∀ c ∈ ocm, c.key ∈ dbk ∨ c.key ≠ k) :
    storeLookup (addLoop dbk ocm s).1 k = storeLookup s k := by
  induction ocm generalizing s with
  | nil => rfl
  | cons c rest ih =>
    unfold addLoop
    split_ifs with hc
    · exact ih s (fun c' hc' => h c' (List.mem_cons_of_mem _ hc'))
    · have hck : c.key ≠ k := by
        rcases h c (List.mem_cons_self _ _) with h1 | h2
        · exact absurd h1 hc
        · exact h2
      dsimp only
      rw [ih _ (fun c' hc' => h c' (List.mem_cons_of_mem _ hc')),
        lookup_upsertFull_ne _ _ _ _ (fun hk => hck hk.symm)]

theorem addLoop_lookup_new (dbk : List PosKey) (ocm : List ChainPos) (s : PosStore)
    (c : ChainPos) (hnd : (ocm.map ChainPos.key).Nodup)
    (hc : c ∈ ocm) (hk : c.key ∉ dbk) :
    storeLookup (addLoop dbk ocm s).1 c.key =
      some ⟨c.size, c.avg_price, true, "onchain_discovery"⟩ := by
  induction ocm generalizing s with
  | nil => cases hc
  | cons c0 rest ih =>
    simp only [List.map_cons, List.nodup_cons] at hnd
    rcases List.mem_cons.mp hc with heq | hmem
    · subst heq
      unfold addLoop
      rw [if_neg hk]
      have hrest : ∀ c' ∈ rest, c'.key ∈ dbk ∨ c'.key ≠ c.key := by
        intro c' hc'
        right
        intro hkeq
        exact hnd.1 (hkeq ▸ List.mem_map.mpr ⟨c', hc', rfl⟩)
      dsimp only
      rw [addLoop_lookup_unchanged dbk rest _ c.key hrest, lookup_upsertFull_self]
    · unfold addLoop
      split_ifs with h0
      · exact ih s hnd.2 hmem
      · exact ih _ hnd.2 hmem

theorem addLoop_noop (dbk : List PosKey) (ocm : List ChainPos) (s : PosStore)
    (h : ∀ c ∈ ocm, c.key ∈ dbk) :
    addLoop dbk ocm s = (s, []) := by
  induction ocm with
  | nil => rfl
  | cons c rest ih =>
    unfold addLoop
    rw [if_pos (h c (List.mem_cons_self _ _))]
    exact ih (fun c' hc' => h c' (List.mem_cons_of_mem _ hc'))

theorem removeLoop_lookup_unchanged (ock : List PosKey) (dbm : PosStore)
    (s : PosStore) (k : PosKey)
    (h : ∀ kv ∈ dbm, kv.1 ∈ ock ∨ kv.1 ≠ k) :
    storeLookup (removeLoop ock dbm s).1 k = storeLookup s k := by
  induction dbm generalizing s with
  | nil => rfl
  | cons kv rest ih =>
    obtain ⟨k0, v0⟩ := kv
    unfold removeLoop
    split_ifs with hc
    · exact ih s (fun kv' hkv' => h kv' (List.mem_cons_of_mem _ hkv'))
    · have hck : k0 ≠ k := by
        rcases h (k0, v0) (List.mem_cons_self _ _) with h1 | h2
        · exact absurd h1 hc
        · exact h2
      dsimp only
      rw [ih _ (fun kv' hkv' => h kv' (List.mem_cons_of_mem _ hkv')),
        lookup_closePos_ne _ _ _ (fun hk => hck hk.symm)]

theorem removeLoop_lookup_closed (ock : List PosKey) (dbm : PosStore) (s : PosStore)
    (k : PosKey) (dp : DbPos) (hnd : (dbm.map Prod.fst).Nodup)
    (hmem : (k, dp) ∈ dbm) (hk : k ∉ ock) :
    storeLookup (removeLoop ock dbm s).1 k =
      (storeLookup s k).map (fun r => { r with is_open := false }) := by
  induction dbm generalizing s with
  | nil => cases hmem
  | cons kv rest ih =>
    obtain ⟨k0, v0⟩ := kv
    simp only [List.map_cons, List.nodup_cons] at hnd
    rcases List.mem_cons.mp hmem with heq | hmem'
    · injection heq with hkk hvv
      subst hkk
      subst hvv
      unfold removeLoop
      rw [if_neg hk]
      have hrest : ∀ kv' ∈ rest, kv'.1 ∈ ock ∨ kv'.1 ≠ k := by
        intro kv' hkv'
        right
        intro hkeq
        exact hnd.1 (hkeq ▸ List.mem_map.mpr ⟨kv', hkv', rfl⟩)
      dsimp only
      rw [removeLoop_lookup_unchanged ock rest _ k hrest, lookup_closePos_self]
    · have hk0 : k0 ≠ k := by
        intro hkeq
        exact hnd.1 (hkeq ▸ List.mem_map.mpr ⟨(k, dp), hmem', rfl⟩)
      unfold removeLoop
      split_ifs with h0
      · exact ih s hnd.2 hmem'
      · dsimp only
        rw [ih _ hnd.2 hmem', lookup_closePos_ne _ _ _ (fun hc => hk0 hc.symm)]

theorem removeLoop_noop (ock : List PosKey) (dbm : PosStore) (s : PosStore)
    (h : ∀ kv ∈ dbm, kv.1 ∈ ock) :
    removeLoop ock dbm s = (s, []) := by
  induction dbm with
  | nil => rfl
  | cons kv rest ih =>
    obtain ⟨k0, v0⟩ := kv
    unfold removeLoop
    rw [if_pos (h (k0, v0) (List.mem_cons_self _ _))]
    exact ih (fun kv' hkv' => h kv' (List.mem_cons_of_mem _ hkv'))

theorem updateLoop_lookup_unchanged (ocm : List ChainPos) (dbm : PosStore)
    (s : PosStore) (k : PosKey)
    (h : ∀ kv ∈ dbm, kv.1 = k → ∀ c, chainLookup ocm kv.1 = some c →
      ¬(1/1000 < |kv.2.size - c.size|)) :
    storeLookup (updateLoop ocm dbm s).1 k = storeLookup s k := by
  induction dbm generalizing s with
  | nil => rfl
  | cons kv rest ih =>
    obtain ⟨k0, v0⟩ := kv
    unfold updateLoop
    cases hcl : chainLookup ocm k0 with
    | none => exact ih s (fun kv' hkv' => h kv' (List.mem_cons_of_mem _ hkv'))
    | some c =>
      dsimp only
      split_ifs with hdiff
      · have hk0 : k0 ≠ k := by
          intro hkeq
          exact h (k0, v0) (List.mem_cons_self _ _) hkeq c hcl hdiff
        dsimp only
        rw [ih _ (fun kv' hkv' => h kv' (List.mem_cons_of_mem _ hkv')),
          lookup_upsertSizeOpen_ne _ _ _ _ _ (fun hc => hk0 hc.symm)]
      · exact ih s (fun kv' hkv' => h kv' (List.mem_cons_of_mem _ hkv'))

theorem updateLoop_lookup_write (ocm : List ChainPos) (dbm : PosStore) (s : PosStore)
    (k : PosKey) (dp : DbPos) (c : ChainPos) (r : DbPos)
    (hnd : (dbm.map Prod.fst).Nodup) (hmem : (k, dp) ∈ dbm)
    (hcl : chainLookup ocm k = some c) (hdiff : 1/1000 < |dp.size - c.size|)
    (hrow : storeLookup s k = some r) :
    storeLookup (updateLoop ocm dbm s).1 k =
      some { r with size := c.size, is_open := decide (0 < c.size) } := by
  induction dbm generalizing s r with
  | nil => cases hmem
  | cons kv rest ih =>
    obtain ⟨k0, v0⟩ := kv
    simp only [List.map_cons, List.nodup_cons] at hnd
    rcases List.mem_cons.mp hmem with heq | hmem'
    · injection heq with hkk hvv
      subst hkk
      subst hvv
      unfold updateLoop
      rw [hcl]
      dsimp only
      rw [if_pos hdiff]
      have hrest : ∀ kv' ∈ rest, kv'.1 = k → ∀ c', chainLookup ocm kv'.1 = some c' →
          ¬(1/1000 < |kv'.2.size - c'.size|) := by
        intro kv' hkv' hkeq
        exact absurd (hkeq ▸ List.mem_map.mpr ⟨kv', hkv', rfl⟩) hnd.1
      dsimp only
      rw [updateLoop_lookup_unchanged ocm rest _ k hrest,
        lookup_upsertSizeOpen_self _ _ _ _ r hrow]
    · have hk0 : k0 ≠ k := by
        intro hkeq
        exact hnd.1 (hkeq ▸ List.mem_map.mpr ⟨(k, dp), hmem', rfl⟩)
      unfold updateLoop
      cases hcl0 : chainLookup ocm k0 with
      | none => exact ih s r hnd.2 hmem' hrow
      | some c0 =>
        dsimp only
        split_ifs with hdiff0
        · exact ih _ r
            hnd.2 hmem'
            ((lookup_upsertSizeOpen_ne _ _ _ _ _ (fun hc => hk0 hc.symm)).trans hrow)
        · exact ih s r hnd.2 hmem' hrow

theorem updateLoop_noop (ocm : List ChainPos) (dbm : PosStore) (s : PosStore)
    (h : ∀ kv ∈ dbm, ∀ c, chainLookup ocm kv.1 = some c →
      ¬(1/1000 < |kv.2.size - c.size|)) :
    updateLoop ocm dbm s = (s, []) := by
  induction dbm with
  | nil => rfl
  | cons kv rest ih =>
    obtain ⟨k0, v0⟩ := kv
    unfold updateLoop
    cases hcl : chainLookup ocm k0 with
    | none => exact ih (fun kv' hkv' => h kv' (List.mem_cons_of_mem _ hkv'))
    | some c =>
      dsimp only
      rw [if_neg (h (k0, v0) (List.mem_cons_self _ _) c hcl)]
      exact ih (fun kv' hkv' => h kv' (List.mem_cons_of_mem _ hkv'))

/-! ### Characterization of `reconcile_positions` -/

theorem chainLookup_exists_of_mem (ocm : List ChainPos) (k : PosKey)
    (h : k ∈ ocm.map ChainPos.key) : ∃ c, chainLookup ocm k = some c := by
  cases hcl : chainLookup ocm k with
  | some c => exact ⟨c, rfl⟩
  | none => exact absurd h ((chainLookup_none_iff ocm k).mp hcl)

theorem mem_value_unique (l : PosStore) (hnd : (l.map Prod.fst).Nodup) (k : PosKey)
    (a b : DbPos) (ha : (k, a) ∈ l) (hb : (k, b) ∈ l) : a = b := by
  have h1 := mem_lookup l k a hnd ha
  have h2 := mem_lookup l k b hnd hb
  rw [h1] at h2
  exact Option.some_inj.mp h2

theorem reconcile_fst_eq (s : PosStore) (onchain : List ChainPos) :
    (reconcile_positions s onchain).1 =
      (updateLoop onchain (get_positions s)
        (removeLoop (onchain.map ChainPos.key) (get_positions s)
          (addLoop ((get_positions s).map Prod.fst) onchain s).1).1).1 := rfl

/-- Keys on neither side are untouched by reconciliation. -/
theorem reconcile_lookup_untouched (s : PosStore) (onchain : List ChainPos)
    (k : PosKey) (hock : k ∉ onchain.map ChainPos.key)
    (hdbk : k ∉ (get_positions s).map Prod.fst) :
    storeLookup (reconcile_positions s onchain).1 k = storeLookup s k := by
  rw [reconcile_fst_eq]
  rw [updateLoop_lookup_unchanged _ _ _ _ (fun kv hkv hkeq c hcl => by
    exact absurd (hkeq ▸ List.mem_map.mpr ⟨kv, hkv, rfl⟩) hdbk)]
  rw [removeLoop_lookup_unchanged _ _ _ _ (fun kv hkv => by
    right
    intro hkeq
    exact hdbk (hkeq ▸ List.mem_map.mpr ⟨kv, hkv, rfl⟩))]
  rw [addLoop_lookup_unchanged _ _ _ _ (fun c hc => by
    right
    intro hkeq
    exact hock (hkeq ▸ List.mem_map.mpr ⟨c, hc, rfl⟩))]

/-- Ledger keys absent from the open snapshot end up as freshly discovered
open rows carrying the ledger size. -/
theorem reconcile_lookup_added (s : PosStore) (onchain : List ChainPos)
    (c : ChainPos) (hl : (onchain.map ChainPos.key).Nodup) (hc : c ∈ onchain)
    (hdbk : c.key ∉ (get_positions s).map Prod.fst) :
    storeLookup (reconcile_positions s onchain).1 c.key =
      some ⟨c.size, c.avg_price, true, "onchain_discovery"⟩ := by
  rw [reconcile_fst_eq]
  rw [updateLoop_lookup_unchanged _ _ _ _ (fun kv hkv hkeq c' hcl => by
    exact absurd (hkeq ▸ List.mem_map.mpr ⟨kv, hkv, rfl⟩) hdbk)]
  rw [removeLoop_lookup_unchanged _ _ _ _ (fun kv hkv => by
    right
    intro hkeq
    exact hdbk (hkeq ▸ List.mem_map.mpr ⟨kv, hkv, rfl⟩))]
  exact addLoop_lookup_new _ _ _ _ hl hc hdbk

/-- Open snapshot keys missing from the ledger end up closed, other columns
preserved. -/
theorem reconcile_lookup_removed (s : PosStore) (onchain : List ChainPos)
    (k : PosKey) (dp : DbPos) (hs : (s.map Prod.fst).Nodup)
    (hmem : (k, dp) ∈ get_positions s) (hock : k ∉ onchain.map ChainPos.key) :
    storeLookup (reconcile_positions s onchain).1 k =
      some { dp with is_open := false } := by
  have hnddbm : ((get_positions s).map Prod.fst).Nodup :=
    List.Nodup.sublist (List.Sublist.map Prod.fst (List.filter_sublist s)) hs
  have hrow : storeLookup s k = some dp :=
    mem_lookup s k dp hs (mem_get_positions s k dp |>.mp hmem).1
  rw [reconcile_fst_eq]
  rw [updateLoop_lookup_unchanged _ _ _ _ (fun kv hkv hkeq c hcl => by
    rw [hkeq] at hcl
    exact absurd hcl (by
      rw [(chainLookup_none_iff onchain k).mpr hock]
      simp))]
  rw [removeLoop_lookup_closed _ _ _ k dp hnddbm hmem hock]
  rw [addLoop_lookup_unchanged _ _ _ _ (fun c hc => by
    right
    intro hkeq
    exact hock (hkeq ▸ List.mem_map.mpr ⟨c, hc, rfl⟩))]
  rw [hrow]
  rfl

/-- Keys present on both sides: the row is overwritten with the ledger size
when the difference exceeds the tolerance, untouched otherwise. -/
theorem reconcile_lookup_both (s : PosStore) (onchain : List ChainPos)
    (k : PosKey) (dp : DbPos) (c : ChainPos) (hs : (s.map Prod.fst).Nodup)
    (hmem : (k, dp) ∈ get_positions s) (hcl : chainLookup onchain k = some c) :
    storeLookup (reconcile_positions s onchain).1 k =
      (if 1/1000 < |dp.size - c.size| then
        some { dp with size := c.size, is_open := decide (0 < c.size) }
      else some dp) := by
  have hnddbm : ((get_positions s).map Prod.fst).Nodup :=
    List.Nodup.sublist (List.Sublist.map Prod.fst (List.filter_sublist s)) hs
  have hrow : storeLookup s k = some dp :=
    mem_lookup s k dp hs (mem_get_positions s k dp |>.mp hmem).1
  have hdbk : k ∈ (get_positions s).map Prod.fst :=
    List.mem_map.mpr ⟨(k, dp), hmem, rfl⟩
  have hock : k ∈ onchain.map ChainPos.key := by
    obtain ⟨hcmem, hckey⟩ := chainLookup_some onchain k c hcl
    exact List.mem_map.mpr ⟨c, hcmem, hckey⟩
  have h1 : storeLookup (addLoop ((get_positions s).map Prod.fst) onchain s).1 k =
      some dp := by
    rw [addLoop_lookup_unchanged _ _ _ _ (fun c' hc' => by
      by_cases hkeq : c'.key = k
      · exact Or.inl (hkeq ▸ hdbk)
      · exact Or.inr hkeq)]
    exact hrow
  have h2 : storeLookup (removeLoop (onchain.map ChainPos.key) (get_positions s)
      (addLoop ((get_positions s).map Prod.fst) onchain s).1).1 k = some dp := by
    rw [removeLoop_lookup_unchanged _ _ _ _ (fun kv hkv => by
      by_cases hkeq : kv.1 = k
      · exact Or.inl (hkeq ▸ hock)
      · exact Or.inr hkeq)]
    exact h1
  rw [reconcile_fst_eq]
  split_ifs with hdiff
  · exact updateLoop_lookup_write _ _ _ k dp c dp hnddbm hmem hcl hdiff h2
  · rw [updateLoop_lookup_unchanged _ _ _ _ (fun kv hkv hkeq c' hcl' => by
      obtain ⟨k1, v1⟩ := kv
      dsimp only at hkeq
      subst hkeq
      have hv1 : v1 = dp := mem_value_unique _ hnddbm _ v1 dp hkv hmem
      rw [hv1]
      rw [hcl] at hcl'
      injection hcl' with hcc
      rw [← hcc]
      exact hdiff)]
    exact h2

/-- C3 counterexample: a zero-size ledger entry absent from the store is NOT
treated as absent — the add branch (`state.py` 292-305) inserts it as an open
position with `is_open = True` and size 0, so after reconciliation the open
store positions are not the ledger positions with zero-size entries removed. -/
theorem c3_counterexample :
    get_positions (reconcile_positions [] [⟨"m", "t", 0, 0⟩]).1 =
      [(("m", "t"), ⟨0, 0, true, "onchain_discovery"⟩)] ∧
    (reconcile_positions [] [⟨"m", "t", 0, 0⟩]).2.1 = [("m", "t")] := by
  constructor <;> rfl

/-- C3 (amended): when every ledger entry has positive size (and both
collections are keyed, i.e. their `(market_id, token_id)` keys are
duplicate-free), reconciliation makes the open store positions have exactly
the ledger's key set, with sizes agreeing up to the 0.001 epsilon tolerance
(not exactly: differences at or below the tolerance are deliberately left in
place), and re-running `reconcile_positions` on its own output is a no-op
with `added = removed = updated = ∅`.  Zero-size ledger entries are not
treated as absent (see the counterexample). -/
theorem c3_reconcile_spec (s : PosStore) (onchain : List ChainPos)
    (hs : (s.map Prod.fst).Nodup)
    (hl : (onchain.map ChainPos.key).Nodup)
    (hpos : ∀ c ∈ onchain, 0 < c.size) :
    (∀ k, (∃ dp, (k, dp) ∈ get_positions (reconcile_positions s onchain).1) ↔
        k ∈ onchain.map ChainPos.key) ∧
    (∀ k dp c, (k, dp) ∈ get_positions (reconcile_positions s onchain).1 →
        chainLookup onchain k = some c → |dp.size - c.size| ≤ 1/1000) ∧
    reconcile_positions (reconcile_positions s onchain).1 onchain =
      ((reconcile_positions s onchain).1, [], [], []) := by
  have hnds' : (((reconcile_positions s onchain).1).map Prod.fst).Nodup := by
    rw [reconcile_fst_eq]
    exact nodup_updateLoop _ _ _ (nodup_removeLoop _ _ _ (nodup_addLoop _ _ _ hs))
  have hnddbm : ((get_positions s).map Prod.fst).Nodup :=
    List.Nodup.sublist (List.Sublist.map Prod.fst (List.filter_sublist s)) hs
  -- the open rows of the result are exactly the ledger keys
  have hopen : ∀ k, (∃ dp, (k, dp) ∈ get_positions (reconcile_positions s onchain).1) ↔
      k ∈ onchain.map ChainPos.key := by
    intro k
    constructor
    · rintro ⟨dp, hdp⟩
      obtain ⟨hdpmem, hdpopen⟩ := (mem_get_positions _ k dp).mp hdp
      have hlook : storeLookup (reconcile_positions s onchain).1 k = some dp :=
        mem_lookup _ k dp hnds' hdpmem
      by_cases hock : k ∈ onchain.map ChainPos.key
      · exact hock
      · exfalso
        by_cases hdbk : k ∈ (get_positions s).map Prod.fst
        · obtain ⟨kv, hkv, hfst⟩ := List.mem_map.mp hdbk
          obtain ⟨k1, dp0⟩ := kv
          dsimp only at hfst
          subst hfst
          have := reconcile_lookup_removed s onchain k1 dp0 hs hkv hock
          rw [hlook] at this
          have hdpe : dp = { dp0 with is_open := false } := Option.some_inj.mp this
          rw [hdpe] at hdpopen
          exact Bool.false_ne_true hdpopen
        · have := reconcile_lookup_untouched s onchain k hock hdbk
          rw [hlook] at this
          have hmem0 : (k, dp) ∈ s := lookup_mem s k dp this.symm
          exact hdbk (List.mem_map.mpr
            ⟨(k, dp), (mem_get_positions s k dp).mpr ⟨hmem0, hdpopen⟩, rfl⟩)
    · intro hock
      by_cases hdbk : k ∈ (get_positions s).map Prod.fst
      · obtain ⟨kv, hkv, hfst⟩ := List.mem_map.mp hdbk
        obtain ⟨k1, dp0⟩ := kv
        dsimp only at hfst
        subst hfst
        obtain ⟨c0, hcl0⟩ := chainLookup_exists_of_mem onchain k1 hock
        have hchar := reconcile_lookup_both s onchain k1 dp0 c0 hs hkv hcl0
        have hc0mem := (chainLookup_some onchain k1 c0 hcl0).1
        by_cases hdiff : 1/1000 < |dp0.size - c0.size|
        · rw [if_pos hdiff] at hchar
          refine ⟨{ dp0 with size := c0.size, is_open := decide (0 < c0.size) },
            (mem_get_positions _ _ _).mpr ⟨lookup_mem _ _ _ hchar, ?_⟩⟩
          exact decide_eq_true (hpos c0 hc0mem)
        · rw [if_neg hdiff] at hchar
          exact ⟨dp0, (mem_get_positions _ _ _).mpr
            ⟨lookup_mem _ _ _ hchar, ((mem_get_positions s k1 dp0).mp hkv).2⟩⟩
      · obtain ⟨c, hcmem, hckey⟩ := List.mem_map.mp hock
        have hchar := reconcile_lookup_added s onchain c hl hcmem (hckey ▸ hdbk)
        rw [hckey] at hchar
        exact ⟨⟨c.size, c.avg_price, true, "onchain_discovery"⟩,
          (mem_get_positions _ _ _).mpr ⟨lookup_mem _ _ _ hchar, rfl⟩⟩
  -- open sizes agree with ledger sizes up to the tolerance
  have hsize : ∀ k dp c, (k, dp) ∈ get_positions (reconcile_positions s onchain).1 →
      chainLookup onchain k = some c → |dp.size - c.size| ≤ 1/1000 := by
    intro k dp c hdp hcl
    obtain ⟨hdpmem, hdpopen⟩ := (mem_get_positions _ k dp).mp hdp
    have hlook : storeLookup (reconcile_positions s onchain).1 k = some dp :=
      mem_lookup _ k dp hnds' hdpmem
    by_cases hdbk : k ∈ (get_positions s).map Prod.fst
    · obtain ⟨kv, hkv, hfst⟩ := List.mem_map.mp hdbk
      obtain ⟨k1, dp0⟩ := kv
      dsimp only at hfst
      subst hfst
      have hchar := reconcile_lookup_both s onchain k1 dp0 c hs hkv hcl
      by_cases hdiff : 1/1000 < |dp0.size - c.size|
      · rw [if_pos hdiff] at hchar
        rw [hlook] at hchar
        have hdpe := Option.some_inj.mp hchar
        rw [hdpe]
        simp
      · rw [if_neg hdiff] at hchar
        rw [hlook] at hchar
        have hdpe := Option.some_inj.mp hchar
        rw [hdpe]
        linarith [not_lt.mp hdiff]
    · obtain ⟨hcmem, hckey⟩ := chainLookup_some onchain k c hcl
      have hchar := reconcile_lookup_added s onchain c hl hcmem (hckey ▸ hdbk)
      rw [hckey, hlook] at hchar
      have hdpe := Option.some_inj.mp hchar
      rw [hdpe]
      simp
  refine ⟨hopen, hsize, ?_⟩
  -- idempotence: the second run performs no writes
  set s' := (reconcile_positions s onchain).1 with hset
  have ha : addLoop ((get_positions s').map Prod.fst) onchain s' = (s', []) := by
    refine addLoop_noop _ _ _ (fun c hc => ?_)
    obtain ⟨dp, hdp⟩ := (hopen c.key).mpr (List.mem_map.mpr ⟨c, hc, rfl⟩)
    exact List.mem_map.mpr ⟨(c.key, dp), hdp, rfl⟩
  have hb : removeLoop (onchain.map ChainPos.key) (get_positions s') s' =
      (s', []) := by
    refine removeLoop_noop _ _ _ (fun kv hkv => ?_)
    exact (hopen kv.1).mp ⟨kv.2, hkv⟩
  have hc : updateLoop onchain (get_positions s') s' = (s', []) := by
    refine updateLoop_noop _ _ _ (fun kv hkv c hcl => ?_)
    exact not_lt.mpr (hsize kv.1 kv.2 c hkv hcl)
  simp only [reconcile_positions, ha, hb, hc]

/-- Concrete store for the C3 witness: one open agent position. -/
def c3WitnessStore : PosStore := [(("m", "t"), ⟨5, 1, true, "agent"⟩)]

/-- Concrete ledger for the C3 witness: the stored position resized to 7,
plus a newly discovered position. -/
def c3WitnessChain : List ChainPos := [⟨"m", "t", 7, 1⟩, ⟨"x", "y", 3, 2⟩]

/-- C3 witness: the amended reconciliation theorem applied to a concrete
store and ledger. -/
theorem c3_witness :
    ((c3WitnessStore.map Prod.fst).Nodup ∧
      (c3WitnessChain.map ChainPos.key).Nodup ∧
      ∀ c ∈ c3WitnessChain, 0 < c.size) ∧
    ((∀ k, (∃ dp, (k, dp) ∈
          get_positions (reconcile_positions c3WitnessStore c3WitnessChain).1) ↔
        k ∈ c3WitnessChain.map ChainPos.key) ∧
      (∀ k dp c, (k, dp) ∈
          get_positions (reconcile_positions c3WitnessStore c3WitnessChain).1 →
        chainLookup c3WitnessChain k = some c → |dp.size - c.size| ≤ 1/1000) ∧
      reconcile_positions (reconcile_positions c3WitnessStore c3WitnessChain).1
          c3WitnessChain =
        ((reconcile_positions c3WitnessStore c3WitnessChain).1, [], [], [])) :=
  ⟨⟨by decide, by decide, by decide⟩,
    c3_reconcile_spec c3WitnessStore c3WitnessChain (by decide) (by decide)
      (by decide)⟩

/-! ## Embedding of `main.py` — `_cancel_stale_orders`

Timestamps are modelled in seconds; `datetime.fromisoformat` is an external
library routine, abstracted as a `parse : String → Option ℚ` parameter whose
`none` outcome models the caught `ValueError`/`TypeError`.  The ledger
gateway's `cancel_order` (which returns a success boolean and swallows its
own exceptions, `execution.py` 339-351) is a `cancelOk : String → Bool`
parameter. -/

/-- A row of the `orders` table (the columns the stale-order pass touches). -/
structure DbOrder where
  order_id : String
  status : String
  created_at : String
deriving DecidableEq

/-- `StateManager.update_order_status` (`state.py` 189-200): an
`UPDATE orders SET status = _ WHERE order_id = _`. -/
def setOrderStatus (os : List DbOrder) (oid : String) (st : String) :
    List DbOrder :=
  os.map (fun o => if o.order_id = oid then { o with status := st } else o)

/-- `StateManager.get_open_orders` (`state.py` 175-187). -/
def get_open_orders (os : List DbOrder) : List DbOrder :=
  os.filter (fun o => decide (o.status = "OPEN"))

/-- `STALE_ORDER_MINUTES` (`main.py` line 53). -/
def STALE_ORDER_MINUTES : ℚ := 60

/-- The loop body of `_cancel_stale_orders` (`main.py` 147-167) over the
snapshot of open orders, threading the orders table. Returns the updated
table, the cancelled count, and the list of order ids a cancel request was
issued for. -/
def cancelLoop (parse : String → Option ℚ) (cancelOk : String → Bool) (now : ℚ)
    (snapshot : List DbOrder) (store : List DbOrder) :
    List DbOrder × ℕ × List String :=
  match snapshot with
  | [] => (store, 0, [])
  | o :: rest =>
    if o.created_at = "" then cancelLoop parse cancelOk now rest store
    else
      match parse o.created_at with
      | none => cancelLoop parse cancelOk now rest store
      | some t =>
        if STALE_ORDER_MINUTES < (now - t) / 60 then
          if o.order_id = "" then cancelLoop parse cancelOk now rest store
          else if cancelOk o.order_id then
            let r := cancelLoop parse cancelOk now rest
              (setOrderStatus store o.order_id "CANCELLED")
            (r.1, r.2.1 + 1, o.order_id :: r.2.2)
          else
            let r := cancelLoop parse cancelOk now rest store
            (r.1, r.2.1, o.order_id :: r.2.2)
        else cancelLoop parse cancelOk now rest store

/-- `_cancel_stale_orders` (`main.py` 141-168): iterates the snapshot of OPEN
orders, updating the orders table. -/
def cancel_stale_orders (parse : String → Option ℚ) (cancelOk : String → Bool)
    (now : ℚ) (orders : List DbOrder) : List DbOrder × ℕ × List String :=
  cancelLoop parse cancelOk now (get_open_orders orders) orders

/-- An order for which the loop issues a cancel request: OPEN snapshot entry,
nonempty parsable timestamp older than the threshold, nonempty order id. -/
def staleRequest (parse : String → Option ℚ) (now : ℚ) (o : DbOrder) : Bool :=
  (o.created_at ≠ "" : Bool) &&
    (match parse o.created_at with
      | none => false
      | some t => decide (STALE_ORDER_MINUTES < (now - t) / 60)) &&
    (o.order_id ≠ "" : Bool)

/-- A stale order whose cancel request succeeds. -/
def staleCancelled (parse : String → Option ℚ) (cancelOk : String → Bool)
    (now : ℚ) (o : DbOrder) : Bool :=
  staleRequest parse now o && cancelOk o.order_id

theorem setOrderStatus_map (os : List DbOrder) (oid : String) (st : String) :
    setOrderStatus os oid st =
      os.map (fun o => if o.order_id = oid then { o with status := st } else o) :=
  rfl

theorem cancelLoop_spec (parse : String → Option ℚ) (cancelOk : String → Bool)
    (now : ℚ) (snapshot store : List DbOrder) :
    cancelLoop parse cancelOk now snapshot store =
      (store.map (fun o =>
          if o.order_id ∈ ((snapshot.filter
              (staleCancelled parse cancelOk now)).map DbOrder.order_id)
          then { o with status := "CANCELLED" } else o),
        (snapshot.filter (staleCancelled parse cancelOk now)).length,
        (snapshot.filter (staleRequest parse now)).map DbOrder.order_id) := by
  induction snapshot generalizing store with
  | nil =>
    simp [cancelLoop]
  | cons o rest ih =>
    unfold cancelLoop
    by_cases hcr : o.created_at = ""
    · have hsr : staleRequest parse now o = false := by
        simp [staleRequest, hcr]
      have hsc : staleCancelled parse cancelOk now o = false := by
        simp [staleCancelled, hsr]
      have hf1 : (o :: rest).filter (staleCancelled parse cancelOk now) =
          rest.filter (staleCancelled parse cancelOk now) := by
        rw [List.filter_cons, hsc]
        rfl
      have hf2 : (o :: rest).filter (staleRequest parse now) =
          rest.filter (staleRequest parse now) := by
        rw [List.filter_cons, hsr]
        rfl
      rw [if_pos hcr, ih store, hf1, hf2]
    · rw [if_neg hcr]
      cases hp : parse o.created_at with
      | none =>
        have hsr : staleRequest parse now o = false := by
          simp [staleRequest, hp]
        have hsc : staleCancelled parse cancelOk now o = false := by
          simp [staleCancelled, hsr]
        have hf1 : (o :: rest).filter (staleCancelled parse cancelOk now) =
            rest.filter (staleCancelled parse cancelOk now) := by
          rw [List.filter_cons, hsc]
          rfl
        have hf2 : (o :: rest).filter (staleRequest parse now) =
            rest.filter (staleRequest parse now) := by
          rw [List.filter_cons, hsr]
          rfl
        rw [ih store, hf1, hf2]
      | some t =>
        dsimp only
        by_cases hage : STALE_ORDER_MINUTES < (now - t) / 60
        · rw [if_pos hage]
          by_cases hid : o.order_id = ""
          · have hsr : staleRequest parse now o = false := by
              simp [staleRequest, hid]
            have hsc : staleCancelled parse cancelOk now o = false := by
              simp [staleCancelled, hsr]
            have hf1 : (o :: rest).filter (staleCancelled parse cancelOk now) =
                rest.filter (staleCancelled parse cancelOk now) := by
              rw [List.filter_cons, hsc]
              rfl
            have hf2 : (o :: rest).filter (staleRequest parse now) =
                rest.filter (staleRequest parse now) := by
              rw [List.filter_cons, hsr]
              rfl
            rw [if_pos hid, ih store, hf1, hf2]
          · rw [if_neg hid]
            have hsr : staleRequest parse now o = true := by
              simp [staleRequest, hcr, hp, hage, hid]
            have hf2 : (o :: rest).filter (staleRequest parse now) =
                o :: rest.filter (staleRequest parse now) := by
              rw [List.filter_cons, hsr]
              rfl
            by_cases hok : cancelOk o.order_id
            · rw [if_pos hok]
              have hsc : staleCancelled parse cancelOk now o = true := by
                simp [staleCancelled, hsr, hok]
              have hf1 : (o :: rest).filter (staleCancelled parse cancelOk now) =
                  o :: rest.filter (staleCancelled parse cancelOk now) := by
                rw [List.filter_cons, hsc]
                rfl
              rw [ih (setOrderStatus store o.order_id "CANCELLED"), hf1, hf2]
              have hmap : (setOrderStatus store o.order_id "CANCELLED").map
                  (fun r => if r.order_id ∈ ((rest.filter
                      (staleCancelled parse cancelOk now)).map DbOrder.order_id)
                    then { r with status := "CANCELLED" } else r) =
                  store.map (fun r => if r.order_id ∈
                      ((o :: rest.filter (staleCancelled parse cancelOk now)).map
                        DbOrder.order_id)
                    then { r with status := "CANCELLED" } else r) := by
                rw [setOrderStatus, List.map_map]
                refine List.map_congr_left (fun r _hr => ?_)
                simp only [Function.comp_apply, List.map_cons, List.mem_cons]
                by_cases hrid : r.order_id = o.order_id
                · simp [hrid]
                · by_cases hrmem : r.order_id ∈
                      ((rest.filter (staleCancelled parse cancelOk now)).map
                        DbOrder.order_id) <;>
                    simp [hrid, hrmem]
              rw [hmap]
              rfl
            · rw [if_neg hok]
              have hsc : staleCancelled parse cancelOk now o = false := by
                simp [staleCancelled, hok]
              have hf1 : (o :: rest).filter (staleCancelled parse cancelOk now) =
                  rest.filter (staleCancelled parse cancelOk now) := by
                rw [List.filter_cons, hsc]
                rfl
              rw [ih store, hf1, hf2]
              rfl
        · rw [if_neg hage]
          have hsr : staleRequest parse now o = false := by
            simp [staleRequest, hp, hage]
          have hsc : staleCancelled parse cancelOk now o = false := by
            simp [staleCancelled, hsr]
          have hf1 : (o :: rest).filter (staleCancelled parse cancelOk now) =
              rest.filter (staleCancelled parse cancelOk now) := by
            rw [List.filter_cons, hsc]
            rfl
          have hf2 : (o :: rest).filter (staleRequest parse now) =
              rest.filter (staleRequest parse now) := by
            rw [List.filter_cons, hsr]
            rfl
          rw [ih store, hf1, hf2]

/-- The parse oracle for the C7 counterexample: only `"t0"` parses (to 0 s). -/
def c7Parse : String → Option ℚ := fun s => if s = "t0" then some 0 else none

/-- The cancel oracle for the C7 counterexample: every cancel succeeds. -/
def c7CancelOk : String → Bool := fun _ => true

/-- C7 counterexample: an OPEN order 91 minutes old with a parsable timestamp
but an empty `order_id` gets NO cancel request (`if order_id:` at
`main.py` 159-160) and is not counted, so a cancel request is not issued for
every stale OPEN order with a parsable timestamp. -/
theorem c7_counterexample :
    c7Parse "t0" = some 0 ∧
    STALE_ORDER_MINUTES < ((5460 : ℚ) - 0) / 60 ∧
    (cancel_stale_orders c7Parse c7CancelOk 5460 [⟨"", "OPEN", "t0"⟩]).2.2 = [] ∧
    (cancel_stale_orders c7Parse c7CancelOk 5460 [⟨"", "OPEN", "t0"⟩]).2.1 = 0 ∧
    (cancel_stale_orders c7Parse c7CancelOk 5460 [⟨"", "OPEN", "t0"⟩]).1 =
      [⟨"", "OPEN", "t0"⟩] := by
  refine ⟨rfl, by norm_num [STALE_ORDER_MINUTES], ?_, ?_, ?_⟩ <;>
    norm_num [cancel_stale_orders, cancelLoop, get_open_orders, c7Parse,
      c7CancelOk, STALE_ORDER_MINUTES, List.filter]

/-- C7 (amended): for every stored order, a cancel request is issued exactly
when the order is OPEN, has a nonempty parsable `created_at` older than the
60-minute threshold, and has a nonempty `order_id`; on success the store row
transitions to `"CANCELLED"` (rows are only ever rewritten to `"CANCELLED"`,
never to `"FILLED"`), orders with missing or unparsable timestamps are
skipped, and the returned count is exactly the number of successful
cancellations. -/
theorem c7_cancel_stale_spec (parse : String → Option ℚ)
    (cancelOk : String → Bool) (now : ℚ) (orders : List DbOrder) :
    cancel_stale_orders parse cancelOk now orders =
      (orders.map (fun o =>
          if o.order_id ∈ (((get_open_orders orders).filter
              (staleCancelled parse cancelOk now)).map DbOrder.order_id)
          then { o with status := "CANCELLED" } else o),
        ((get_open_orders orders).filter
          (staleCancelled parse cancelOk now)).length,
        ((get_open_orders orders).filter
          (staleRequest parse now)).map DbOrder.order_id) :=
  cancelLoop_spec parse cancelOk now (get_open_orders orders) orders

/-! ## Embedding of `src/core/state.py` — config reads and the kill switch -/

/-- A JSON-ish value stored in the `bot_state` table. -/
inductive PyVal where
  | dict (entries : List (String × PyVal))
  | bool (b : Bool)
  | str (s : String)
  | num (q : ℚ)
  | pynone

/-- Outcome of the Supabase select in `get_config` (`state.py` 47-61):
either the returned rows, or a raised exception. -/
inductive ConfigRead where
  | rows (vals : List PyVal)
  | err

/-- `StateManager.get_config` (`state.py` 47-61): first row's value if any,
the default on an empty result, and — because every exception is caught —
the default on a raised exception as well. -/
def get_config (r : ConfigRead) (default : PyVal) : PyVal :=
  match r with
  | ConfigRead.rows (v :: _) => v
  | ConfigRead.rows [] => default
  | ConfigRead.err => default

/-- Python `dict.get(key, default)`. -/
def dictGet (entries : List (String × PyVal)) (key : String)
    (default : PyVal) : PyVal :=
  match entries.find? (fun kv => decide (kv.1 = key)) with
  | some kv => kv.2
  | none => default

/-- `StateManager.is_alive` (`state.py` 77-82): reads the `"config"` value
with default `{"is_alive": True}`; non-dict values yield `True`. -/
def is_alive (r : ConfigRead) : PyVal :=
  match get_config r (PyVal.dict [("is_alive", PyVal.bool true)]) with
  | PyVal.dict entries => dictGet entries "is_alive" (PyVal.bool true)
  | _ => PyVal.bool true

/-- Python truthiness, as applied by `if not state.is_alive()`. -/
def pyTruthy : PyVal → Bool
  | PyVal.bool b => b
  | PyVal.dict entries => !entries.isEmpty
  | PyVal.str s => !(s = "")
  | PyVal.num q => decide (q ≠ 0)
  | PyVal.pynone => false

/-- `phase_0_kill_switch` (`main.py` 72-88): continue iff `is_alive` is truthy. -/
def phase_0_kill_switch (r : ConfigRead) : Bool :=
  pyTruthy (is_alive r)

/-- True iff the read produced at least one row whose value is a dict —
the only situation in which `is_alive` consults stored data. -/
def configHeadIsDict : ConfigRead → Bool
  | ConfigRead.rows (PyVal.dict _ :: _) => true
  | _ => false

/-! ## Embedding of `main.py` — the phased cycle -/

/-- Where (if anywhere) the cycle raises an unhandled exception, should the
corresponding phase run. -/
inductive FailPoint where
  | fpNone
  | fpInit
  | fpReconcile
  | fpDiscovery
  | fpAnalysisPhase
  | fpExecution
  | fpArbScan
  | fpSummary
deriving DecidableEq

/-- The environment one invocation of `main` runs against. -/
structure CycleEnv where
  failAt : FailPoint
  aliveFlag : Bool
  ledgerBalance : ℚ
  marketsEmpty : Bool
  oppsEmpty : Bool
deriving DecidableEq

/-- Observable outcome of one invocation of `main`. -/
structure CycleOutcome where
  summaryAttempted : Bool
  lastErrorAttempted : Bool
  deadMarked : Bool
  exitCode : ℕ
deriving DecidableEq

/-- The top-level `except` path (`main.py` 679-693): best-effort
`last_error` write and exit status 1, no summary. -/
def errOutcome : CycleOutcome := ⟨false, true, false, 1⟩

/-- Reaching `phase_6_summary` (`main.py` 542-579): the `last_run` write is
attempted; if it raises, the top-level handler writes `last_error` and the
process exits 1. -/
def summaryOutcome (fa : FailPoint) : CycleOutcome :=
  if fa = FailPoint.fpSummary then ⟨true, true, false, 1⟩
  else ⟨true, false, false, 0⟩

/-- `main` (`main.py` 589-693): component init, kill switch, reconciliation,
zero-balance exit, discovery, analysis, execution, arbitrage scan, summary,
with the top-level catch-all. -/
def mainCycle (env : CycleEnv) : CycleOutcome :=
  if env.failAt = FailPoint.fpInit then errOutcome
  else if env.aliveFlag = false then ⟨false, false, false, 0⟩
  else if env.failAt = FailPoint.fpReconcile then errOutcome
  else if env.ledgerBalance ≤ 0 then ⟨false, false, true, 0⟩
  else if env.failAt = FailPoint.fpDiscovery then errOutcome
  else if env.marketsEmpty then summaryOutcome env.failAt
  else if env.failAt = FailPoint.fpAnalysisPhase then errOutcome
  else if env.oppsEmpty then summaryOutcome env.failAt
  else if env.failAt = FailPoint.fpExecution then errOutcome
  else if env.failAt = FailPoint.fpArbScan then errOutcome
  else summaryOutcome env.failAt

/-- C4 counterexample: on the kill-switch-off path `main` returns before any
later phase (`main.py` 624-625) — the terminal summary write is NOT
attempted, contradicting the claim that it always is.  (The zero-balance and
top-level-exception paths skip it too.) -/
theorem c4_counterexample :
    (mainCycle ⟨FailPoint.fpNone, false, 100, false, false⟩).summaryAttempted =
      false ∧
    (mainCycle ⟨FailPoint.fpNone, true, 0, false, false⟩).summaryAttempted =
      false ∧
    (mainCycle ⟨FailPoint.fpReconcile, true, 100, false, false⟩).summaryAttempted =
      false := by
  refine ⟨?_, ?_, ?_⟩ <;> decide

/-- C4 (amended): the terminal summary write is attempted exactly on the
invocations that pass the kill switch with positive ledger balance and raise
no exception in a phase before the summary (the empty-markets and
empty-opportunities early exits included); the kill-switch-off and
zero-balance paths exit without it, and exception paths attempt a
`last_error` write instead. -/
theorem c4_summary_iff (env : CycleEnv) :
    (mainCycle env).summaryAttempted = true ↔
      (env.failAt ≠ FailPoint.fpInit ∧ env.aliveFlag = true ∧
        env.failAt ≠ FailPoint.fpReconcile ∧ 0 < env.ledgerBalance ∧
        env.failAt ≠ FailPoint.fpDiscovery ∧
        (env.marketsEmpty = true ∨
          (env.failAt ≠ FailPoint.fpAnalysisPhase ∧
            (env.oppsEmpty = true ∨
              (env.failAt ≠ FailPoint.fpExecution ∧
                env.failAt ≠ FailPoint.fpArbScan))))) := by
  obtain ⟨fa, alive, bal, me, oe⟩ := env
  rcases le_or_lt bal 0 with hbal | hbal
  · have h1 : ¬(0 < bal) := not_lt.mpr hbal
    cases fa <;> cases alive <;> cases me <;> cases oe <;>
      simp [mainCycle, summaryOutcome, errOutcome, hbal, h1]
  · have h1 : ¬(bal ≤ 0) := not_le.mpr hbal
    cases fa <;> cases alive <;> cases me <;> cases oe <;>
      simp [mainCycle, summaryOutcome, errOutcome, hbal, h1]

/-- C9: the kill switch fails open — whenever the config read does not yield
a dict value (key absent, non-dict value, or a raised exception caught in
`get_config`), `is_alive` returns `True` and `phase_0_kill_switch` lets the
cycle proceed; with no other failure and positive balance the cycle then
reaches the summary. -/
theorem c9_kill_switch_fails_open (r : ConfigRead)
    (h : configHeadIsDict r = false) :
    is_alive r = PyVal.bool true ∧
    phase_0_kill_switch r = true ∧
    (mainCycle ⟨FailPoint.fpNone, phase_0_kill_switch r, 1000, false,
        false⟩).summaryAttempted = true := by
  have halive : is_alive r = PyVal.bool true := by
    cases r with
    | err => rfl
    | rows vals =>
      cases vals with
      | nil => rfl
      | cons v rest =>
        cases v with
        | dict entries => exact absurd h (by simp [configHeadIsDict])
        | bool b => rfl
        | str s => rfl
        | num q => rfl
        | pynone => rfl
  have hp0 : phase_0_kill_switch r = true := by
    unfold phase_0_kill_switch
    rw [halive]
    rfl
  refine ⟨halive, hp0, ?_⟩
  rw [hp0]
  decide

/-- C9 witness: a raised read exception — the cycle still proceeds. -/
theorem c9_witness :
    configHeadIsDict ConfigRead.err = false ∧
    (is_alive ConfigRead.err = PyVal.bool true ∧
      phase_0_kill_switch ConfigRead.err = true ∧
      (mainCycle ⟨FailPoint.fpNone, phase_0_kill_switch ConfigRead.err, 1000,
          false, false⟩).summaryAttempted = true) :=
  ⟨rfl, c9_kill_switch_fails_open ConfigRead.err rfl⟩

end PolyBot
